import Mathlib

/-
Formal model of a genetic-algorithm polynomial-fitting program (a sequential
CPU variant and an MPI multi-worker variant).

The program's buffers are flat float arrays; we model buffer contents as total
functions `ℕ → ℚ` (rationals stand in for IEEE floats: every claim settled here
is about index arithmetic, control flow, orderings and exact algebraic
identities, none of which depend on rounding).  The compile-time constants
POPULATION_SIZE, INDIVIDUAL_LEN and N_POINTS from the missing `config.h` are
parameters `P`, `L`, `N`.  Calls to the C `random()` / `rand()` generators are
modelled by explicit streams of drawn values passed as function arguments.
-/

namespace GA

/-- The fitness table entry of individual `i`: for every data point `pt`
(`points pt` is x, `points (N + pt)` is y) accumulate the squared error of the
polynomial with coefficients `individuals (i*L + order)`, `order < L`.
Mirrors the `fitness` function: the C code computes this for every `i < P`. -/
def fitness (L N : ℕ) (individuals points : ℕ → ℚ) (i : ℕ) : ℚ :=
  ∑ pt in Finset.range N,
    ((∑ order in Finset.range L, individuals (i * L + order) * points pt ^ order)
      - points (N + pt)) ^ 2

/-- The crosspoint drawn in `crossover` from a raw `random()` value `r`:
`crosspoint = random() % (INDIVIDUAL_LEN - 2) + 1`. -/
def crosspointOf (L : ℕ) (r : ℕ) : ℕ := r % (L - 2) + 1

/-- The `crossover` function.  `draws k` is the triple of `random()` values
consumed by pair `k` of the child loop (parent1 draw, parent2 draw, crosspoint
draw).  The code copies flat indices `< P/2*L` from `oldPopulation`, then for
every child pair computes `parent1_i = (random() % (P/2)) * L` (likewise
`parent2_i`) and reads parent genes at `oldPopulation[parent1_i*L + j]` — note
`parent1_i` is an offset already scaled by `L`, and the read site scales it by
`L` a second time, exactly as in the source.  Slots at or above `P*L` keep the
destination buffer's previous contents `scratch` (writes the child loop would
place beyond `P*L` are outside the logical population and are not tracked). -/
def crossover (P L : ℕ) (draws : ℕ → ℕ × ℕ × ℕ) (oldPopulation scratch : ℕ → ℚ)
    (idx : ℕ) : ℚ :=
  if idx < P / 2 * L then oldPopulation idx
  else if idx < P * L then
    let off := idx - P / 2 * L
    let pair := off / (2 * L)
    let w := off % (2 * L)
    let parent1_i := (draws pair).1 % (P / 2) * L
    let parent2_i := (draws pair).2.1 % (P / 2) * L
    let crosspoint := crosspointOf L (draws pair).2.2
    if w < L then
      if w < crosspoint then oldPopulation (parent1_i * L + w)
      else oldPopulation (parent2_i * L + w)
    else
      if w - L < crosspoint then oldPopulation (parent2_i * L + (w - L))
      else oldPopulation (parent1_i * L + (w - L))
  else scratch idx

/-- The `mutation` function.  The code skips individual 0, draws per individual
an integer threshold `mutNumber = (int) nrand(mu_individuals, sigma_individuals)`
(modelled post-truncation as `mutNumber i : ℤ`), and for each gene `j` of
individual `i` draws `nrand(mu_genes, sigma_genes)` (modelled as `geneDraw i j`);
when that draw is below the threshold the gene is perturbed by
`0.01 * (2*frand() - 1)` with `frand = rand()/RAND_MAX` (modelled as
`geneRand i j`).  Gene `idx` belongs to individual `idx / L`, position
`idx % L`; genes are mutually independent, so the in-place loop is functional. -/
def mutation (P L : ℕ) (mutNumber : ℕ → ℤ) (geneDraw geneRand : ℕ → ℕ → ℚ)
    (individuals : ℕ → ℚ) (idx : ℕ) : ℚ :=
  let i := idx / L
  let j := idx % L
  if 1 ≤ i ∧ i < P then
    if geneDraw i j < (mutNumber i : ℚ) then
      individuals idx + 1 / 100 * (2 * geneRand i j - 1)
    else individuals idx
  else individuals idx

/-- The comparator handed to `std::sort`: compare fitness keys of
(fitness, index) pairs. -/
def myCmpPair (p1 p2 : ℚ × ℕ) : Prop := p1.1 < p2.1

instance (p1 p2 : ℚ × ℕ) : Decidable (myCmpPair p1 p2) := by
  unfold myCmpPair; infer_instance

/-- The postcondition the C++ standard guarantees for
`sort(pairs, pairs+P, myCmpPair)` on the array of `(fitnesses i, i)` pairs:
the resulting arrangement is described by the index map `perm`
(`sorted position ↦ original index`), which maps `[0,P)` into and onto `[0,P)`
and is sorted with respect to `myCmpPair`.  `std::sort` guarantees nothing
beyond this — in particular not stability. -/
def sortSpec (P : ℕ) (fitnesses : ℕ → ℚ) (perm : ℕ → ℕ) : Prop :=
  (∀ i < P, perm i < P) ∧
  (∀ j < P, ∃ i < P, perm i = j) ∧
  (∀ j < P, ∀ i ≤ j,
    ¬ myCmpPair (fitnesses (perm j), perm j) (fitnesses (perm i), perm i))

instance (P : ℕ) (f : ℕ → ℚ) (perm : ℕ → ℕ) : Decidable (sortSpec P f perm) := by
  unfold sortSpec; infer_instance

/-- The `selection` function: after sorting the (fitness, index) pairs, the code
copies individual `pairs[i].second` of `population` into slot `i` of
`newPopulation`.  `perm` is the sorted index map produced by `std::sort`;
slots at or above `P*L` keep the destination buffer's previous contents. -/
def selection (P L : ℕ) (perm : ℕ → ℕ) (population scratch : ℕ → ℚ)
    (idx : ℕ) : ℚ :=
  if idx < P * L then population (perm (idx / L) * L + idx % L) else scratch idx

/-- The random values consumed by one iteration of the main GA loop:
`crossDraws` feeds `crossover`, `mutNumber`/`geneDraw`/`geneRand` feed
`mutation`, and `selPerm` is the index arrangement produced by the
`std::sort` call inside `selection`. -/
structure IterDraws where
  crossDraws : ℕ → ℕ × ℕ × ℕ
  mutNumber : ℕ → ℤ
  geneDraw : ℕ → ℕ → ℚ
  geneRand : ℕ → ℕ → ℚ
  selPerm : ℕ → ℕ

/-- The state carried across iterations of the main GA loop: the two
double-buffered population arrays (`population` is the buffer the variable
`population` points at when the loop condition is evaluated, `scratch` is the
buffer `newPopulation` points at), plus the scalar loop variables. -/
structure GAState where
  population : ℕ → ℚ
  scratch : ℕ → ℚ
  bestFitness : ℚ
  previousBestFitness : ℚ
  noChangeIter : ℕ
  generationNumber : ℕ

/-- The population after the crossover + buffer swap + in-place mutation steps
of one loop iteration. -/
def iterPopulation (P L : ℕ) (d : IterDraws) (s : GAState) : ℕ → ℚ :=
  mutation P L d.mutNumber d.geneDraw d.geneRand
    (crossover P L d.crossDraws s.population s.scratch)

/-- The fitness table computed by `fitness(population, points, current_fitnesses)`
inside one loop iteration. -/
def iterFitness (P L N : ℕ) (points : ℕ → ℚ) (d : IterDraws) (s : GAState)
    (i : ℕ) : ℚ :=
  fitness L N (iterPopulation P L d s) points i

/-- One iteration of the main GA loop body: crossover into the scratch buffer,
swap buffers, mutate in place, evaluate fitness, read
`bestFitness = current_fitnesses[0]`, update the stagnation counter against
`previousBestFitness` (`fabs(bestFitness - previousBestFitness) < 0.01`), run
selection into the other buffer and swap again. -/
def gaIteration (P L N : ℕ) (points : ℕ → ℚ) (d : IterDraws) (s : GAState) :
    GAState :=
  let mutated := iterPopulation P L d s
  let best := fitness L N mutated points 0
  { population := selection P L d.selPerm mutated s.population
    scratch := mutated
    bestFitness := best
    previousBestFitness := best
    noChangeIter :=
      if |best - s.previousBestFitness| < 1 / 100 then s.noChangeIter + 1 else 0
    generationNumber := s.generationNumber + 1 }

/-- The loop of `findMinimum` in the MPI variant, processing indices
`1 .. n` after starting from `min = array[0], minIdx = 0`; the running
minimum always equals `array` at the running index, so only the index is
tracked.  The update fires only on a strict `<`, keeping the earliest index
among ties. -/
def findMinAux (array : ℕ → ℚ) : ℕ → ℕ
  | 0 => 0
  | n + 1 =>
    if array (n + 1) < array (findMinAux array n) then n + 1
    else findMinAux array n

/-- `findMinimum(array, arrayLen)`: index of the minimal value, first
occurrence on ties. -/
def findMinimum (array : ℕ → ℚ) (arrayLen : ℕ) : ℕ :=
  findMinAux array (arrayLen - 1)

/-- The `bestFitness_all` array assembled at the master rank: slot 0 holds the
master's own fitness, slot `i ≥ 1` holds the fitness received from rank `i`. -/
def gatheredFitness (own : ℚ) (recvFitness : ℕ → ℚ) (i : ℕ) : ℚ :=
  if i = 0 then own else recvFitness i

/-- `int bestSolution = findMinimum(bestFitness_all, commSize)`: the rank whose
RunResult the master reports as the global result. -/
def bestSolution (own : ℚ) (recvFitness : ℕ → ℚ) (commSize : ℕ) : ℕ :=
  findMinimum (gatheredFitness own recvFitness) commSize

/-- The phases `main` of the CPU variant can reach before the population
buffers are allocated and initialized. -/
inductive ConfigOutcome
  | usageError
  | inputFileError
  | proceedsToInit
deriving DecidableEq

/-- The pre-initialization control flow of the CPU variant's `main`: the only
gates before buffer allocation and population initialization are the argument
count check (`argc != 2`) and the `readData` success check; the configuration
constants are accepted unexamined (they are parameters here only to record
that the code never reads them at this stage). -/
def mainConfigPhase (argc : ℕ) (fileOk : Bool)
    (POPULATION_SIZE N_POINTS INDIVIDUAL_LEN : ℕ) : ConfigOutcome :=
  if argc ≠ 2 then ConfigOutcome.usageError
  else if !fileOk then ConfigOutcome.inputFileError
  else ConfigOutcome.proceedsToInit

/-- The phases `main` of the MPI variant can reach before `readData` is
called. -/
inductive MpiPhase
  | usageError
  | tooManyProcesses
  | readsPointFile
deriving DecidableEq

/-- The pre-`readData` control flow of the MPI variant's `main`: after the
argument count check and MPI initialization, a communicator larger than 4
processes is rejected (`commSize > 4` prints an error and returns) before the
point file is read and before `computeGA` starts any GA loop. -/
def mpiMainPhase (argc commSize : ℕ) : MpiPhase :=
  if argc ≠ 2 then MpiPhase.usageError
  else if 4 < commSize then MpiPhase.tooManyProcesses
  else MpiPhase.readsPointFile

/-! ### Basic lemmas about the operators -/

/-- Flat indices below `P/2*L` (the elite half) are copied unchanged by
crossover. -/
lemma crossover_copy (P L : ℕ) (draws : ℕ → ℕ × ℕ × ℕ) (old scr : ℕ → ℚ)
    {idx : ℕ} (h : idx < P / 2 * L) :
    crossover P L draws old scr idx = old idx := by
  unfold crossover
  rw [if_pos h]

/-- Genes of individual 0 (flat indices below `L`) are never touched by
mutation. -/
lemma mutation_indiv0 (P L : ℕ) (mN : ℕ → ℤ) (gd gr : ℕ → ℕ → ℚ)
    (ind : ℕ → ℚ) {idx : ℕ} (h : idx < L) :
    mutation P L mN gd gr ind idx = ind idx := by
  unfold mutation
  have h0 : idx / L = 0 := Nat.div_eq_of_lt h
  simp [h0]

/-- Gene `j` of output individual `i` of selection is gene `j` of input
individual `perm i`. -/
lemma selection_gene (P L : ℕ) (perm : ℕ → ℕ) (pop scr : ℕ → ℚ) {i j : ℕ}
    (hi : i < P) (hj : j < L) :
    selection P L perm pop scr (i * L + j) = pop (perm i * L + j) := by
  have hL : 0 < L := Nat.pos_of_ne_zero (by rintro rfl; exact Nat.not_lt_zero j hj)
  have hlt : i * L + j < P * L := by
    calc i * L + j < i * L + L := by omega
    _ = (i + 1) * L := by ring
    _ ≤ P * L := Nat.mul_le_mul_right L hi
  have hdiv : (i * L + j) / L = i := by
    rw [Nat.mul_comm i L, Nat.mul_add_div hL, Nat.div_eq_of_lt hj, Nat.add_zero]
  have hmod : (i * L + j) % L = j := by
    rw [Nat.mul_comm i L, Nat.mul_add_mod, Nat.mod_eq_of_lt hj]
  unfold selection
  rw [if_pos hlt, hdiv, hmod]

/-- Fitness of an individual depends only on its own `L` genes. -/
lemma fitness_congr (L N : ℕ) (a b points : ℕ → ℚ) (i1 i2 : ℕ)
    (h : ∀ k < L, a (i1 * L + k) = b (i2 * L + k)) :
    fitness L N a points i1 = fitness L N b points i2 := by
  unfold fitness
  refine Finset.sum_congr rfl (fun pt _ => ?_)
  have hsum : (∑ order in Finset.range L, a (i1 * L + order) * points pt ^ order)
      = ∑ order in Finset.range L, b (i2 * L + order) * points pt ^ order :=
    Finset.sum_congr rfl (fun k hk => by rw [h k (Finset.mem_range.mp hk)])
  rw [hsum]

lemma findMinAux_le (array : ℕ → ℚ) : ∀ n, findMinAux array n ≤ n := by
  intro n
  induction n with
  | zero => exact Nat.le_refl 0
  | succ n ih =>
    unfold findMinAux
    split
    · exact Nat.le_refl _
    · exact Nat.le_succ_of_le ih

lemma findMinAux_min (array : ℕ → ℚ) :
    ∀ n, ∀ i ≤ n, array (findMinAux array n) ≤ array i := by
  intro n
  induction n with
  | zero => intro i hi; rw [Nat.le_zero.mp hi]; exact le_refl _
  | succ n ih =>
    intro i hi
    unfold findMinAux
    rcases Nat.eq_or_lt_of_le hi with heq | hlt
    · subst heq
      split
      · exact le_refl _
      · exact le_of_not_lt (by assumption)
    · have hin : i ≤ n := Nat.lt_succ_iff.mp hlt
      split
      · exact le_of_lt (lt_of_lt_of_le (by assumption) (ih i hin))
      · exact ih i hin

lemma findMinAux_first (array : ℕ → ℚ) :
    ∀ n, ∀ j < findMinAux array n, array (findMinAux array n) < array j := by
  intro n
  induction n with
  | zero => intro j hj; exact absurd hj (Nat.not_lt_zero j)
  | succ n ih =>
    intro j hj
    unfold findMinAux at hj ⊢
    split
    · rename_i hcase
      have hjn : j ≤ n := Nat.lt_succ_iff.mp (by
        have := hj; rw [if_pos hcase] at this; exact this)
      exact lt_of_lt_of_le hcase (findMinAux_min array n j hjn)
    · rename_i hcase
      rw [if_neg hcase] at hj
      exact ih j hj

/-! ### Concrete buffers and draw streams used as inputs below -/

/-- A population buffer whose flat entry `idx` holds the value `idx`, so every
flat position is identifiable by its value. -/
def c1Old : ℕ → ℚ := fun idx => (idx : ℚ)

/-- Crossover draw stream: every pair draws parent indices 1 and 1 and
crosspoint raw value 0. -/
def c1Draws : ℕ → ℕ × ℕ × ℕ := fun _ => (1, 1, 0)

/-! ### Claim theorems -/

/-- Claim C1 (code evaluation at the failing input): with `POPULATION_SIZE = 8`
and `INDIVIDUAL_LEN = 4` the elite half is flat indices `0..15` (individuals
0..3), yet with parent draws `1` the first child's first gene (flat index 16 of
the output) is the value stored at flat index 16 of the input — a value held
nowhere in the elite half.  The parent offset `parent1_i = (random()%(P/2))*L`
is scaled by `L` a second time at the read site, so genes are read from
individual `(random()%(P/2))*L`, outside the elite half (and, for larger
draws, outside the whole population). -/
theorem crossover_reads_outside_elite :
    crossover 8 4 c1Draws c1Old c1Old 16 = 16 ∧ ∀ idx < 16, c1Old idx ≠ 16 := by
  constructor
  · norm_num [crossover, c1Draws, c1Old, crosspointOf]
  · decide

/-- Claim C4 (counterexample): with `INDIVIDUAL_LEN = 4` and raw draw 0 the
crosspoint is `0 % (4-2) + 1 = 1`, which is not strictly greater than 1 — the
crosspoint is NOT drawn from the open interval `(1, geneCount-1)`. -/
theorem crosspoint_eq_one :
    crosspointOf 4 0 = 1 ∧ ¬ 1 < crosspointOf 4 0 := by
  decide

/-- Claim C4 (amended): for every draw and every `geneCount ≥ 3`, the
crosspoint lies in the closed interval `[1, geneCount-2]`: never 0 and never
`geneCount-1`, so each child takes at least one gene from each parent on each
side of the split — but the crosspoint can equal 1. -/
theorem crosspoint_range (L r : ℕ) (hL : 3 ≤ L) :
    1 ≤ crosspointOf L r ∧ crosspointOf L r ≤ L - 2 := by
  have h2 : 0 < L - 2 := by omega
  have hm := Nat.mod_lt r h2
  unfold crosspointOf
  omega

/-- Witness for `crosspoint_range` at `L = 4`, raw draw 5. -/
theorem crosspoint_range_witness :
    3 ≤ 4 ∧ 1 ≤ crosspointOf 4 5 ∧ crosspointOf 4 5 ≤ 4 - 2 :=
  ⟨by decide, crosspoint_range 4 5 (by decide)⟩

/-- Claim C6: every fitness table entry of an individual `i < P` is the sum
over all points of the squared residual of the individual's polynomial; hence
it is non-negative, and it is 0 whenever the polynomial passes exactly through
every point. -/
theorem fitness_spec (P L N : ℕ) (individuals points : ℕ → ℚ) (i : ℕ)
    (hi : i < P) :
    fitness L N individuals points i =
      (∑ pt in Finset.range N,
        ((∑ order in Finset.range L,
            individuals (i * L + order) * points pt ^ order)
          - points (N + pt)) ^ 2) ∧
    0 ≤ fitness L N individuals points i ∧
    ((∀ pt < N,
        (∑ order in Finset.range L,
            individuals (i * L + order) * points pt ^ order) = points (N + pt)) →
      fitness L N individuals points i = 0) := by
  refine ⟨rfl, ?_, ?_⟩
  · exact Finset.sum_nonneg fun pt _ => sq_nonneg _
  · intro hfit
    unfold fitness
    refine Finset.sum_eq_zero fun pt hpt => ?_
    rw [hfit pt (Finset.mem_range.mp hpt), sub_self]
    exact zero_pow (by norm_num)

/-- Individual 0 with genes `[1, 2]`: the polynomial `1 + 2x`. -/
def c6Ind : ℕ → ℚ := fun k => if k = 0 then 1 else 2

/-- One point `(3, 7)`, lying exactly on `1 + 2x`. -/
def c6Pts : ℕ → ℚ := fun k => if k = 0 then 3 else 7

/-- Witness for `fitness_spec`: population size 1, two genes, one point. -/
theorem fitness_spec_witness :
    (0 : ℕ) < 1 ∧
    (fitness 2 1 c6Ind c6Pts 0 =
      (∑ pt in Finset.range 1,
        ((∑ order in Finset.range 2, c6Ind (0 * 2 + order) * c6Pts pt ^ order)
          - c6Pts (1 + pt)) ^ 2) ∧
    0 ≤ fitness 2 1 c6Ind c6Pts 0 ∧
    ((∀ pt < 1,
        (∑ order in Finset.range 2,
            c6Ind (0 * 2 + order) * c6Pts pt ^ order) = c6Pts (1 + pt)) →
      fitness 2 1 c6Ind c6Pts 0 = 0)) :=
  ⟨by decide, fitness_spec 1 2 1 c6Ind c6Pts 0 (by decide)⟩

/-- Claim C7: for every input population and every sequence of random draws
(`geneRand` being `frand()` values, hence in `[0,1]`), mutation leaves every
gene of individual 0 unchanged, and every gene it changes moves by exactly
`0.01*(2*frand()-1)`, a value of magnitude at most `0.01 = 1/100`. -/
theorem mutation_frame (P L : ℕ) (mN : ℕ → ℤ) (gd gr : ℕ → ℕ → ℚ)
    (individuals : ℕ → ℚ)
    (hr : ∀ i j, 0 ≤ gr i j ∧ gr i j ≤ 1) :
    (∀ idx < L, mutation P L mN gd gr individuals idx = individuals idx) ∧
    (∀ idx, |mutation P L mN gd gr individuals idx - individuals idx| ≤ 1 / 100) := by
  constructor
  · intro idx h
    exact mutation_indiv0 P L mN gd gr individuals h
  · intro idx
    unfold mutation
    by_cases h1 : 1 ≤ idx / L ∧ idx / L < P
    · rw [if_pos h1]
      by_cases h2 : gd (idx / L) (idx % L) < ((mN (idx / L) : ℤ) : ℚ)
      · rw [if_pos h2]
        have hg := hr (idx / L) (idx % L)
        rw [add_sub_cancel_left, abs_mul]
        have habs : |2 * gr (idx / L) (idx % L) - 1| ≤ 1 :=
          abs_le.mpr ⟨by linarith [hg.1], by linarith [hg.2]⟩
        calc |(1 : ℚ) / 100| * |2 * gr (idx / L) (idx % L) - 1|
            ≤ |(1 : ℚ) / 100| * 1 := mul_le_mul_of_nonneg_left habs (abs_nonneg _)
          _ = 1 / 100 := by norm_num
      · rw [if_neg h2, sub_self, abs_zero]; norm_num
    · rw [if_neg h1, sub_self, abs_zero]; norm_num

/-- `frand()` values all equal to 1/2. -/
def c7Rand : ℕ → ℕ → ℚ := fun _ _ => 1 / 2

/-- An all-zero population buffer. -/
def zeroBuf : ℕ → ℚ := fun _ => 0

/-- Witness for `mutation_frame` at `P = 8`, `L = 4`, constant draws. -/
theorem mutation_frame_witness :
    (∀ i j : ℕ, 0 ≤ c7Rand i j ∧ c7Rand i j ≤ 1) ∧
    ((∀ idx < 4,
        mutation 8 4 (fun _ => 1) (fun _ _ => 0) c7Rand zeroBuf idx = zeroBuf idx) ∧
     (∀ idx,
        |mutation 8 4 (fun _ => 1) (fun _ _ => 0) c7Rand zeroBuf idx - zeroBuf idx|
          ≤ 1 / 100)) :=
  ⟨fun _ _ => ⟨by norm_num [c7Rand], by norm_num [c7Rand]⟩,
   mutation_frame 8 4 (fun _ => 1) (fun _ _ => 0) c7Rand zeroBuf
     (fun _ _ => ⟨by norm_num [c7Rand], by norm_num [c7Rand]⟩)⟩

/-- Claim C5 (amended): given the `std::sort` postcondition on the
(fitness, index) pairs, selection outputs exactly the input individuals
rearranged by the sorted index map `perm` (which is a bijection of `[0,P)` —
no individual created or destroyed), fitness keys are non-decreasing by
output position, and position 0 carries a minimum-fitness individual of the
generation.  The order among equal-fitness individuals is NOT pinned down:
`std::sort` gives no stability guarantee (see `selection_tie_not_stable`). -/
theorem selection_spec (P L : ℕ) (fitnesses : ℕ → ℚ) (perm : ℕ → ℕ)
    (population scratch : ℕ → ℚ) (hs : sortSpec P fitnesses perm) :
    (∀ i < P, ∀ j < L,
      selection P L perm population scratch (i * L + j)
        = population (perm i * L + j)) ∧
    (∀ i < P, perm i < P) ∧
    (∀ j < P, ∃ i < P, perm i = j) ∧
    (∀ i j, i < P → j < P → perm i = perm j → i = j) ∧
    (∀ i j, i ≤ j → j < P → fitnesses (perm i) ≤ fitnesses (perm j)) ∧
    (∀ i < P, fitnesses (perm 0) ≤ fitnesses i) := by
  obtain ⟨hbound, hsurj, hsorted⟩ := hs
  have hle : ∀ i j, i ≤ j → j < P → fitnesses (perm i) ≤ fitnesses (perm j) := by
    intro i j hij hj
    have h' : ¬ fitnesses (perm j) < fitnesses (perm i) := hsorted j hj i hij
    exact not_lt.mp h'
  refine ⟨?_, hbound, hsurj, ?_, hle, ?_⟩
  · intro i hi j hj
    exact selection_gene P L perm population scratch hi hj
  · intro i j hi hj hperm
    let f : Fin P → Fin P := fun x => ⟨perm x.1, hbound x.1 x.2⟩
    have hfsurj : Function.Surjective f := by
      intro y
      obtain ⟨k, hk, hpk⟩ := hsurj y.1 y.2
      exact ⟨⟨k, hk⟩, Fin.ext hpk⟩
    have hfinj : Function.Injective f := Finite.injective_iff_surjective.mpr hfsurj
    have hfij : f ⟨i, hi⟩ = f ⟨j, hj⟩ := Fin.ext hperm
    exact congrArg Fin.val (hfinj hfij)
  · intro i hi
    obtain ⟨k, hk, hpk⟩ := hsurj i hi
    have h0k := hle 0 k (Nat.zero_le k) hk
    rw [hpk] at h0k
    exact h0k

/-- Fitness table with all entries equal (a tie). -/
def tieFits : ℕ → ℚ := fun _ => 5

/-- An index arrangement that swaps positions 0 and 1. -/
def tiePerm : ℕ → ℕ := fun i => if i = 0 then 1 else if i = 1 then 0 else i

/-- A two-individual, one-gene population with distinguishable genes. -/
def tiePop : ℕ → ℚ := fun idx => (idx : ℚ)

/-- Claim C5 (counterexample): with two equal-fitness individuals, the
arrangement that swaps them satisfies everything the `std::sort` call in
`selection` guarantees (`sortSpec`), yet the resulting output does NOT keep
the equal-fitness individuals in their original relative index order —
position 0 gets original individual 1.  The source sorts with `std::sort`,
which is not stable, so the claimed stable tie-break is not ensured. -/
theorem selection_tie_not_stable :
    sortSpec 2 tieFits tiePerm ∧
    selection 2 1 tiePerm tiePop tiePop 0 = tiePop 1 ∧
    tiePop 1 ≠ tiePop 0 := by
  refine ⟨by decide, ?_, by decide⟩
  norm_num [selection, tiePerm, tiePop]

/-- The identity index arrangement. -/
def idPerm : ℕ → ℕ := fun i => i

/-- A fitness table with strictly increasing entries. -/
def rampFits : ℕ → ℚ := fun i => (i : ℚ)

/-- Witness for `selection_spec`: two one-gene individuals with distinct
fitness values 0 and 1, identity arrangement. -/
theorem selection_spec_witness :
    sortSpec 2 rampFits idPerm ∧
    ((∀ i < 2, ∀ j < 1,
      selection 2 1 idPerm tiePop tiePop (i * 1 + j) = tiePop (idPerm i * 1 + j)) ∧
    (∀ i < 2, idPerm i < 2) ∧
    (∀ j < 2, ∃ i < 2, idPerm i = j) ∧
    (∀ i j, i < 2 → j < 2 → idPerm i = idPerm j → i = j) ∧
    (∀ i j, i ≤ j → j < 2 → rampFits (idPerm i) ≤ rampFits (idPerm j)) ∧
    (∀ i < 2, rampFits (idPerm 0) ≤ rampFits i)) :=
  ⟨by decide,
   selection_spec 2 1 rampFits idPerm tiePop tiePop (by decide)⟩

/-- The single data point `(0, 0)`; with it, an individual's fitness is the
square of its constant coefficient. -/
def c2Pts : ℕ → ℚ := fun _ => 0

/-- Population: individual 0 is `[1,1,1,1]` (fitness 1 against `c2Pts`), all
other flat entries — including the region past the logical population that
the buggy crossover reads — are 0. -/
def c2Pop : ℕ → ℚ := fun idx => if idx < 4 then 1 else 0

/-- Sorted index arrangement for the fitness table `[1,0,0,0]`:
positions take original indices `1,2,3,0`. -/
def c2Perm : ℕ → ℕ :=
  fun i => if i = 0 then 1 else if i = 1 then 2 else if i = 2 then 3
    else if i = 3 then 0 else i

/-- Draws for the failing generation: parents drawn with raw value 1,
crosspoint raw value 0, mutation thresholds 0 (so no gene mutates), and the
sorted arrangement `c2Perm`. -/
def c2Draws : IterDraws :=
  ⟨fun _ => (1, 1, 0), fun _ => 0, fun _ _ => 0, fun _ _ => 0, c2Perm⟩

/-- Loop state entering the failing generation. -/
def c2State : GAState := ⟨c2Pop, zeroBuf, 0, 0, 0, 0⟩

/-- Crossover + mutation with `c2Draws` leave the first 16 flat slots equal to
`c2Pop`: the elite half is copied, the children are spliced from the (out of
range) flat slots 16..19, all holding 0, and no gene mutates. -/
lemma c2_mut_eval :
    ∀ idx < 16, iterPopulation 4 4 c2Draws c2State idx = c2Pop idx := by
  decide

/-- The generation's fitness table against the single point `(0,0)`:
`[1, 0, 0, 0]`. -/
lemma c2_fits_eval :
    ∀ i < 4, iterFitness 4 4 1 c2Pts c2Draws c2State i = if i = 0 then 1 else 0 := by
  intro i hi
  have hcongr : iterFitness 4 4 1 c2Pts c2Draws c2State i = fitness 4 1 c2Pop c2Pts i :=
    fitness_congr 4 1 _ c2Pop c2Pts i i
      (fun k hk => c2_mut_eval (i * 4 + k) (by omega))
  rw [hcongr]
  interval_cases i <;> norm_num [fitness, Finset.sum_range_succ, c2Pop, c2Pts]

/-- Claim C2 (code evaluation at the failing input): with `POPULATION_SIZE=4`,
`INDIVIDUAL_LEN=4`, one point `(0,0)` and the draws above, the generation's
fitness table is `[1,0,0,0]`: the loop records `bestFitness =
current_fitnesses[0] = 1` (read before `selection` runs), while the
post-selection minimum of that generation is 0 — after selection, position 0
holds an individual of fitness 0.  `c2Perm` satisfies the `std::sort`
postcondition for this table, so this is a run the code can produce. -/
theorem bestFitness_not_generation_min :
    (gaIteration 4 4 1 c2Pts c2Draws c2State).bestFitness = 1 ∧
    fitness 4 1 (gaIteration 4 4 1 c2Pts c2Draws c2State).population c2Pts 0 = 0 ∧
    sortSpec 4 (iterFitness 4 4 1 c2Pts c2Draws c2State) c2Draws.selPerm := by
  refine ⟨?_, ?_, ?_⟩
  · show iterFitness 4 4 1 c2Pts c2Draws c2State 0 = 1
    simpa using c2_fits_eval 0 (by norm_num)
  · have hmove : fitness 4 1 (gaIteration 4 4 1 c2Pts c2Draws c2State).population c2Pts 0
        = iterFitness 4 4 1 c2Pts c2Draws c2State 1 := by
      apply fitness_congr
      intro k hk
      show selection 4 4 c2Draws.selPerm (iterPopulation 4 4 c2Draws c2State) c2Pop
          (0 * 4 + k) = iterPopulation 4 4 c2Draws c2State (1 * 4 + k)
      rw [@selection_gene 4 4 c2Draws.selPerm (iterPopulation 4 4 c2Draws c2State) c2Pop
        0 k (by norm_num) hk]
      norm_num [c2Draws, c2Perm]
    rw [hmove]
    simpa using c2_fits_eval 1 (by norm_num)
  · refine ⟨by decide, by decide, ?_⟩
    intro j hj i hij
    have hperm : c2Draws.selPerm = c2Perm := rfl
    interval_cases j <;> interval_cases i <;>
      simp [myCmpPair, hperm, c2Perm, c2_fits_eval]

/-- Claim C3: for any state that is itself the output of a GA-loop iteration
(that is, from generation 1 on), running one more iteration cannot increase
`bestFitness`, whatever the random draws of the next iteration are: individual
0 is copied unchanged by `crossover` (it lies in the elite half), skipped by
`mutation`, and was placed at position 0 by the previous `selection`, whose
sorted arrangement puts a minimum of the previous fitness table there. -/
theorem bestFitness_monotone (P L N : ℕ) (points : ℕ → ℚ) (d1 d2 : IterDraws)
    (s0 : GAState) (hP : 2 ≤ P)
    (hsort : sortSpec P (iterFitness P L N points d1 s0) d1.selPerm) :
    (gaIteration P L N points d2 (gaIteration P L N points d1 s0)).bestFitness
      ≤ (gaIteration P L N points d1 s0).bestFitness := by
  rcases Nat.eq_zero_or_pos L with hL0 | hL
  · subst hL0
    apply le_of_eq
    show fitness 0 N (iterPopulation P 0 d2 (gaIteration P 0 N points d1 s0)) points 0
        = fitness 0 N (iterPopulation P 0 d1 s0) points 0
    exact fitness_congr 0 N _ _ points 0 0 (fun k hk => absurd hk (Nat.not_lt_zero k))
  · have hP2 : 1 ≤ P / 2 := by omega
    have hLhalf : L ≤ P / 2 * L := by
      calc L = 1 * L := (one_mul L).symm
      _ ≤ P / 2 * L := Nat.mul_le_mul_right L hP2
    have hkey : ∀ k < L,
        iterPopulation P L d2 (gaIteration P L N points d1 s0) k
          = iterPopulation P L d1 s0 (d1.selPerm 0 * L + k) := by
      intro k hk
      have h1 : iterPopulation P L d2 (gaIteration P L N points d1 s0) k
          = crossover P L d2.crossDraws (gaIteration P L N points d1 s0).population
              (gaIteration P L N points d1 s0).scratch k :=
        mutation_indiv0 _ _ _ _ _ _ hk
      rw [h1,
        crossover_copy P L d2.crossDraws _ _ (lt_of_lt_of_le hk hLhalf)]
      show selection P L d1.selPerm (iterPopulation P L d1 s0) s0.population k
          = iterPopulation P L d1 s0 (d1.selPerm 0 * L + k)
      have h2 := @selection_gene P L d1.selPerm (iterPopulation P L d1 s0)
        s0.population 0 k (by omega) hk
      simpa using h2
    have hfit2 : fitness L N
        (iterPopulation P L d2 (gaIteration P L N points d1 s0)) points 0
          = fitness L N (iterPopulation P L d1 s0) points (d1.selPerm 0) := by
      apply fitness_congr
      intro k hk
      rw [zero_mul, zero_add]
      exact hkey k hk
    obtain ⟨hbound, hsurj, hsorted⟩ := hsort
    obtain ⟨i0, hi0P, hi0⟩ := hsurj 0 (by omega)
    have hmin : ¬ iterFitness P L N points d1 s0 (d1.selPerm i0)
        < iterFitness P L N points d1 s0 (d1.selPerm 0) :=
      hsorted i0 hi0P 0 (Nat.zero_le i0)
    have hle := not_lt.mp hmin
    rw [hi0] at hle
    show fitness L N (iterPopulation P L d2 (gaIteration P L N points d1 s0)) points 0
        ≤ fitness L N (iterPopulation P L d1 s0) points 0
    rw [hfit2]
    exact hle

/-- All-zero draws, identity arrangement: a degenerate but legal run. -/
def c3Draws : IterDraws :=
  ⟨fun _ => (0, 0, 0), fun _ => 0, fun _ _ => 0, fun _ _ => 0, fun i => i⟩

/-- All-zero initial loop state. -/
def c3State : GAState := ⟨zeroBuf, zeroBuf, 0, 0, 0, 0⟩

/-- Witness for `bestFitness_monotone`: two individuals of four genes, no data
points. -/
theorem bestFitness_monotone_witness :
    2 ≤ 2 ∧
    (gaIteration 2 4 0 zeroBuf c3Draws
        (gaIteration 2 4 0 zeroBuf c3Draws c3State)).bestFitness
      ≤ (gaIteration 2 4 0 zeroBuf c3Draws c3State).bestFitness :=
  ⟨by decide,
   bestFitness_monotone 2 4 0 zeroBuf c3Draws c3Draws c3State (by decide) (by decide)⟩

/-- Claim C8 (counterexample): with a correct command line (`argc = 2`) and a
readable points file, the configuration `POPULATION_SIZE = 0`, `N_POINTS = 0`
is NOT rejected: the program proceeds to buffer allocation and population
initialization, contradicting the claim that such configurations are rejected
before the Initializing state. -/
theorem config_zero_not_rejected :
    mainConfigPhase 2 true 0 0 4 = ConfigOutcome.proceedsToInit ∧
    mainConfigPhase 2 true 0 0 4 ≠ ConfigOutcome.usageError ∧
    mainConfigPhase 2 true 0 0 4 ≠ ConfigOutcome.inputFileError := by
  decide

/-- Claim C8 (amended): the only conditions under which the CPU variant stops
before allocating populations are a wrong argument count and an unreadable
input file; the configuration constants (population size, point count, gene
count) are never examined, so any zero or mismatched configuration proceeds
into Initializing. -/
theorem config_checks_only_cli_and_file (argc : ℕ) (fileOk : Bool) (P N L : ℕ) :
    mainConfigPhase argc fileOk P N L = ConfigOutcome.proceedsToInit ↔
      (argc = 2 ∧ fileOk = true) := by
  unfold mainConfigPhase
  rcases fileOk with _ | _ <;> by_cases h : argc = 2 <;> simp [h]

/-- Claim C9: the rank the master reports (`findMinimum` over the gathered
fitness array, whose slot 0 is the master's own result) is in range, achieves
the minimum fitness over all workers including the coordinator, and on ties is
the lowest such rank (every strictly lower rank has strictly larger fitness). -/
theorem global_result_min (own : ℚ) (recvFitness : ℕ → ℚ) (commSize : ℕ)
    (h : 1 ≤ commSize) :
    bestSolution own recvFitness commSize < commSize ∧
    gatheredFitness own recvFitness 0 = own ∧
    (∀ i < commSize,
      gatheredFitness own recvFitness (bestSolution own recvFitness commSize)
        ≤ gatheredFitness own recvFitness i) ∧
    (∀ j < bestSolution own recvFitness commSize,
      gatheredFitness own recvFitness (bestSolution own recvFitness commSize)
        < gatheredFitness own recvFitness j) := by
  unfold bestSolution findMinimum
  refine ⟨?_, rfl, ?_, ?_⟩
  · have := findMinAux_le (gatheredFitness own recvFitness) (commSize - 1)
    omega
  · intro i hi
    exact findMinAux_min _ (commSize - 1) i (by omega)
  · intro j hj
    exact findMinAux_first _ (commSize - 1) j hj

/-- Fitness values received from the other workers: rank 1 reports 1/10,
rank 2 reports 9/10 (the master's own fitness will be 1/2). -/
def c9Recv : ℕ → ℚ := fun i => if i = 1 then 1 / 10 else 9 / 10

/-- Witness for `global_result_min`: three workers with fitnesses
`{0.5, 0.1, 0.9}`; the reported rank is 1, the worker with fitness 0.1. -/
theorem global_result_min_witness :
    1 ≤ 3 ∧
    bestSolution (1 / 2) c9Recv 3 = 1 ∧
    gatheredFitness (1 / 2) c9Recv (bestSolution (1 / 2) c9Recv 3) = 1 / 10 ∧
    (bestSolution (1 / 2) c9Recv 3 < 3 ∧
     gatheredFitness (1 / 2) c9Recv 0 = 1 / 2 ∧
     (∀ i < 3,
       gatheredFitness (1 / 2) c9Recv (bestSolution (1 / 2) c9Recv 3)
         ≤ gatheredFitness (1 / 2) c9Recv i) ∧
     (∀ j < bestSolution (1 / 2) c9Recv 3,
       gatheredFitness (1 / 2) c9Recv (bestSolution (1 / 2) c9Recv 3)
         < gatheredFitness (1 / 2) c9Recv j)) :=
  ⟨by norm_num,
   by norm_num [bestSolution, findMinimum, findMinAux, gatheredFitness, c9Recv],
   by norm_num [bestSolution, findMinimum, findMinAux, gatheredFitness, c9Recv],
   global_result_min (1 / 2) c9Recv 3 (by norm_num)⟩

/-- Claim C10: whenever the communicator holds more than 4 processes, the MPI
variant never reaches the point-file read (and hence never starts a GA loop);
with a correct command line it stops exactly at the too-many-processes error. -/
theorem mpi_rejects_over_four (argc commSize : ℕ) (h : 4 < commSize) :
    mpiMainPhase argc commSize ≠ MpiPhase.readsPointFile ∧
    (argc = 2 → mpiMainPhase argc commSize = MpiPhase.tooManyProcesses) := by
  unfold mpiMainPhase
  constructor
  · intro hc
    by_cases h1 : argc ≠ 2
    · rw [if_pos h1] at hc
      exact MpiPhase.noConfusion hc
    · rw [if_neg h1, if_pos h] at hc
      exact MpiPhase.noConfusion hc
  · intro ha
    have h1 : ¬ argc ≠ 2 := by omega
    rw [if_neg h1, if_pos h]

/-- Witness for `mpi_rejects_over_four`: 5 processes, correct command line. -/
theorem mpi_rejects_over_four_witness :
    4 < 5 ∧
    (mpiMainPhase 2 5 ≠ MpiPhase.readsPointFile ∧
     (2 = 2 → mpiMainPhase 2 5 = MpiPhase.tooManyProcesses)) :=
  ⟨by decide, mpi_rejects_over_four 2 5 (by decide)⟩

end GA
